import Mathlib

/-!
# haskell-hook: the `hk_zp` debug hook

A shallow embedding of `src/haskell-hook/zp.c`.  The hook is a straight line of
calls into the host runtime, one write of its own (`printf`) and one memory
read of its own (`regs.sp[5]`).  The embedding runs the hook on an explicit
world (memory and diagnostic output stream), logs every effect the hook
performs in program order, and stops at the first effect that does not return.
-/

namespace HaskellHook

/-! ## Data model -/

/-- A machine word of the runtime (`StgWord`): register contents and stack slots. -/
abbrev StgWord := Nat

/-- A pointer to a runtime word (`StgPtr`), as a byte address. -/
abbrev StgPtr := Nat

/-- Modelled from the spec: `haskell.h` is not in the source, so the register
cell `StgUnion` is reduced to the one member the hook reads, its address view `a`. -/
structure StgUnion where
  a : StgWord
deriving DecidableEq

/-- Modelled from the spec: `haskell.h` is not in the source.  The register
snapshot `stg_regset_t` holds the general registers `r1`..`r6` and the stack
pointer `sp` that the hook names; `rest` stands for every register of the
aggregate that the hook never names. -/
structure stg_regset_t where
  r1 : StgUnion
  r2 : StgUnion
  r3 : StgUnion
  r4 : StgUnion
  r5 : StgUnion
  r6 : StgUnion
  sp : StgPtr
  rest : List StgWord
deriving DecidableEq

/-- The runtime state the hook runs against: `mem a` is the word stored at byte
address `a` when that word is readable and `none` when it is not; `out` is the
text written so far to the diagnostic output stream. -/
structure World where
  mem : StgPtr → Option StgWord
  out : String

/-- What `hooks.h` and `haskell.h` (not in the source) provide to the hook: the
size in bytes of a stack word and the three external routines.  A routine that
aborts instead of returning yields `none`.  `getregs` captures the snapshot from
the world; the two printers receive the snapshot as context, which they read,
and may transform the world in any way. -/
structure Runtime where
  sizeof_StgWord : Nat
  getregs : World → Option stg_regset_t
  printregs : stg_regset_t → World → Option World
  print_closure : StgWord → String → Int → stg_regset_t → World → Option World

/-- One effect performed by the hook, with the arguments it passed. -/
inductive Event where
  | getregs : Event
  | printf (text : String) : Event
  | printregs (regs : stg_regset_t) : Event
  | print_closure (ref : StgWord) (label : String) (depth : Int) (ctx : stg_regset_t) : Event
  | load (addr : StgPtr) : Event
deriving DecidableEq

/-- Why a run of the hook stopped before its end. -/
inductive Fault where
  | aborted (routine : String) : Fault
  | segv (addr : StgPtr) : Fault
deriving DecidableEq

/-- The outcome of running a piece of the hook: the effects performed in program
order, the world where the run stopped, and the value or the fault.  A call or
a read that does not return is logged as well; it is then the last event. -/
structure Result (α : Type) where
  trace : List Event
  world : World
  val : Except Fault α

/-- A piece of the hook: a function from the world to an outcome. -/
def Hook (α : Type) : Type := World → Result α

namespace Hook

/-- Return a value without any effect. -/
def ret {α : Type} (x : α) : Hook α :=
  fun w => ⟨[], w, Except.ok x⟩

/-- Sequencing: run `x`; when it returns, continue with `f`; when it does not,
nothing after it runs. -/
def andThen {α β : Type} (x : Hook α) (f : α → Hook β) : Hook β :=
  fun w =>
    match x w with
    | ⟨t, w1, Except.ok v⟩ => ⟨t ++ (f v w1).trace, (f v w1).world, (f v w1).val⟩
    | ⟨t, w1, Except.error e⟩ => ⟨t, w1, Except.error e⟩

instance : Monad Hook where
  pure := ret
  bind := andThen

/-- The call `getregs(&regs)`. -/
def getregs (R : Runtime) : Hook stg_regset_t :=
  fun w =>
    match R.getregs w with
    | some regs => ⟨[Event.getregs], w, Except.ok regs⟩
    | none => ⟨[Event.getregs], w, Except.error (Fault.aborted "getregs")⟩

/-- The hook's own write `printf(text)`: appends to the output stream. -/
def printf (text : String) : Hook Unit :=
  fun w => ⟨[Event.printf text], { w with out := w.out ++ text }, Except.ok ()⟩

/-- The call `printregs(&regs)`. -/
def printregs (R : Runtime) (regs : stg_regset_t) : Hook Unit :=
  fun w =>
    match R.printregs regs w with
    | some w1 => ⟨[Event.printregs regs], w1, Except.ok ()⟩
    | none => ⟨[Event.printregs regs], w, Except.error (Fault.aborted "printregs")⟩

/-- The call `print_closure(ref, label, depth, &regs)`. -/
def print_closure (R : Runtime) (ref : StgWord) (label : String) (depth : Int)
    (regs : stg_regset_t) : Hook Unit :=
  fun w =>
    match R.print_closure ref label depth regs w with
    | some w1 => ⟨[Event.print_closure ref label depth regs], w1, Except.ok ()⟩
    | none =>
      ⟨[Event.print_closure ref label depth regs], w, Except.error (Fault.aborted "print_closure")⟩

/-- The hook's own read `p[i]`: the word at byte address `p + i * sizeof(StgWord)`.
An unreadable address stops the run. -/
def index (R : Runtime) (p : StgPtr) (i : Nat) : Hook StgWord :=
  fun w =>
    match w.mem (p + i * R.sizeof_StgWord) with
    | some v => ⟨[Event.load (p + i * R.sizeof_StgWord)], w, Except.ok v⟩
    | none =>
      ⟨[Event.load (p + i * R.sizeof_StgWord)], w,
        Except.error (Fault.segv (p + i * R.sizeof_StgWord))⟩

end Hook

open Hook

/-- The hook `hk_zp` of `zp.c`, statement by statement. -/
def hk_zp (R : Runtime) : Hook Unit := do
  let regs ← getregs R
  printf "---(+)---\n"
  printregs R regs
  print_closure R regs.r1.a "R1" 0 regs
  print_closure R regs.r2.a "R2" 0 regs
  print_closure R regs.r3.a "R3" 0 regs
  print_closure R regs.r4.a "R4" 0 regs
  print_closure R regs.r5.a "R5" 0 regs
  print_closure R regs.r6.a "R6" 0 regs
  print_closure R regs.sp "*Sp" 0 regs
  let slot ← index R regs.sp 5
  print_closure R slot "*Sp+0x20" 0 regs

/-! ## Reading a trace -/

/-- Whether an event is a `print_closure` call. -/
def Event.isDump : Event → Bool
  | Event.print_closure _ _ _ _ => true
  | _ => false

/-- The label argument of a `print_closure` call. -/
def Event.label : Event → Option String
  | Event.print_closure _ l _ _ => some l
  | _ => none

/-- The snapshot an event hands to an external printer. -/
def Event.snapshot : Event → Option stg_regset_t
  | Event.printregs regs => some regs
  | Event.print_closure _ _ _ ctx => some ctx
  | _ => none

/-! ## Assumptions on the external routines -/

/-- The two printers return on every input. -/
def Runtime.Returns (R : Runtime) : Prop :=
  (∀ regs w, ∃ w1, R.printregs regs w = some w1) ∧
  (∀ ref label depth regs w, ∃ w1, R.print_closure ref label depth regs w = some w1)

/-- The two printers only append to the output stream: a call that returns
leaves the memory as it was and extends the output. -/
def Runtime.AppendOnly (R : Runtime) : Prop :=
  (∀ regs w w1, R.printregs regs w = some w1 →
    w1.mem = w.mem ∧ ∃ t, w1.out = w.out ++ t) ∧
  (∀ ref label depth regs w w1, R.print_closure ref label depth regs w = some w1 →
    w1.mem = w.mem ∧ ∃ t, w1.out = w.out ++ t)

/-- The two printers are deterministic functions of their arguments and the
memory: a call either aborts or appends a text to the output and changes nothing
else, and which of the two, and the text, depend on nothing but the arguments
and the memory. -/
def Runtime.Deterministic (R : Runtime) : Prop :=
  (∃ f : stg_regset_t → (StgPtr → Option StgWord) → Option String,
    ∀ regs w, R.printregs regs w =
      (f regs w.mem).map (fun t => { w with out := w.out ++ t })) ∧
  (∃ g : StgWord → String → Int → stg_regset_t → (StgPtr → Option StgWord) → Option String,
    ∀ ref label depth regs w, R.print_closure ref label depth regs w =
      (g ref label depth regs w.mem).map (fun t => { w with out := w.out ++ t }))

/-! ## Proof-side descriptions of a piece of the hook -/

/-- The twelve effects of a run that reaches the end of `hk_zp`, in program
order, where `v` is the word the hook read from the stack; the traces of
`hk_zp` are compared with initial segments of this list. -/
def fullRun (R : Runtime) (regs : stg_regset_t) (v : StgWord) : List Event :=
  [Event.getregs, Event.printf "---(+)---\n", Event.printregs regs,
   Event.print_closure regs.r1.a "R1" 0 regs,
   Event.print_closure regs.r2.a "R2" 0 regs,
   Event.print_closure regs.r3.a "R3" 0 regs,
   Event.print_closure regs.r4.a "R4" 0 regs,
   Event.print_closure regs.r5.a "R5" 0 regs,
   Event.print_closure regs.r6.a "R6" 0 regs,
   Event.print_closure regs.sp "*Sp" 0 regs,
   Event.load (regs.sp + 5 * R.sizeof_StgWord),
   Event.print_closure v "*Sp+0x20" 0 regs]

/-- Every run of `k` performs an initial segment of `L v`, at least one event
long, and the whole of it when it returns. -/
def Runs (k : Hook Unit) (L : StgWord → List Event) : Prop :=
  ∀ w, ∃ n v, 1 ≤ n ∧ n ≤ (L v).length ∧ (k w).trace = (L v).take n ∧
    ((k w).val = Except.ok () → n = (L v).length)

/-- A piece of the hook leaves the memory as it was and only extends the output. -/
def Frames {α : Type} (x : Hook α) : Prop :=
  ∀ w, (x w).world.mem = w.mem ∧ ∃ t, (x w).world.out = w.out ++ t

/-- The effects, the appended text and the outcome of a piece of the hook are
determined by the memory. -/
def Fixed {α : Type} (x : Hook α) : Prop :=
  ∀ m, ∃ tr t v, ∀ w : World, w.mem = m → x w = ⟨tr, ⟨m, w.out ++ t⟩, v⟩

/-! ## Concrete runtimes used to evaluate the hook -/

/-- A snapshot with distinct register values. -/
def demoRegs : stg_regset_t :=
  { r1 := ⟨101⟩, r2 := ⟨102⟩, r3 := ⟨103⟩, r4 := ⟨104⟩, r5 := ⟨105⟩, r6 := ⟨106⟩,
    sp := 4096, rest := [7, 8] }

/-- A runtime with 8-byte words whose routines always return: `printregs`
writes the stack pointer, `print_closure` writes the label and the reference. -/
def demoRuntime : Runtime :=
  { sizeof_StgWord := 8
    getregs := fun _ => some demoRegs
    printregs := fun regs w => some { w with out := w.out ++ (toString regs.sp ++ "\n") }
    print_closure := fun ref label _ _ w =>
      some { w with out := w.out ++ (label ++ "=" ++ toString ref ++ "\n") } }

/-- A world whose stack holds 444 in the slot 0x20 bytes above `demoRegs.sp` and
777 in the slot 0x28 bytes above it; no other word is readable. -/
def demoWorld : World :=
  { mem := fun a => if a = 4128 then some 444 else if a = 4136 then some 777 else none
    out := "" }

/-- A world with a short stack: only the five words `sp[0]`..`sp[4]` above
`demoRegs.sp` are readable. -/
def shortStackWorld : World :=
  { mem := fun a => if 4096 ≤ a ∧ a < 4136 then some 0 else none, out := "" }

/-! ## The shape of a run -/

/-- The hook as the chain of its twelve steps. -/
theorem hk_zp_eq (R : Runtime) : hk_zp R =
    andThen (getregs R) (fun regs =>
    andThen (printf "---(+)---\n") (fun _ =>
    andThen (printregs R regs) (fun _ =>
    andThen (print_closure R regs.r1.a "R1" 0 regs) (fun _ =>
    andThen (print_closure R regs.r2.a "R2" 0 regs) (fun _ =>
    andThen (print_closure R regs.r3.a "R3" 0 regs) (fun _ =>
    andThen (print_closure R regs.r4.a "R4" 0 regs) (fun _ =>
    andThen (print_closure R regs.r5.a "R5" 0 regs) (fun _ =>
    andThen (print_closure R regs.r6.a "R6" 0 regs) (fun _ =>
    andThen (print_closure R regs.sp "*Sp" 0 regs) (fun _ =>
    andThen (index R regs.sp 5) (fun slot =>
    print_closure R slot "*Sp+0x20" 0 regs))))))))))) := rfl

/-- A `printregs` call logs exactly its own event, whether it returns or not. -/
theorem printregs_trace (R : Runtime) (regs : stg_regset_t) (w : World) :
    (printregs R regs w).trace = [Event.printregs regs] := by
  unfold printregs; split <;> rfl

/-- A `print_closure` call logs exactly its own event, whether it returns or not. -/
theorem print_closure_trace (R : Runtime) (ref : StgWord) (l : String) (d : Int)
    (regs : stg_regset_t) (w : World) :
    (print_closure R ref l d regs w).trace = [Event.print_closure ref l d regs] := by
  unfold print_closure; split <;> rfl

/-- Putting a one-event call in front of a tail puts its event in front of the tail's events. -/
theorem runs_step {x : Hook Unit} {e : Event} (hx : ∀ w, (x w).trace = [e])
    {k : Hook Unit} {L : StgWord → List Event} (hk : Runs k L) :
    Runs (andThen x (fun _ => k)) (fun v => e :: L v) := by
  intro w
  have hxw := hx w
  unfold andThen
  rcases hxv : x w with ⟨t, w1, err | u⟩
  · rw [hxv] at hxw
    simp only at hxw
    subst hxw
    exact ⟨1, 0, le_refl _, by simp, by simp, by simp⟩
  · rw [hxv] at hxw
    simp only at hxw
    subst hxw
    obtain ⟨n, v, h1, h2, h3, h4⟩ := hk w1
    refine ⟨n + 1, v, by omega, by simp; omega, by simp [h3], ?_⟩
    intro h
    simp only at h
    simp [h4 h]

/-- The last two steps: the read of `regs.sp[5]` and the dump of the word read. -/
theorem runs_last (R : Runtime) (regs : stg_regset_t) :
    Runs (andThen (index R regs.sp 5) (fun slot => print_closure R slot "*Sp+0x20" 0 regs))
      (fun v => [Event.load (regs.sp + 5 * R.sizeof_StgWord),
                 Event.print_closure v "*Sp+0x20" 0 regs]) := by
  intro w
  unfold andThen index
  rcases hm : w.mem (regs.sp + 5 * R.sizeof_StgWord) with _ | v
  · exact ⟨1, 0, le_refl _, by simp, by simp, by simp⟩
  · refine ⟨2, v, by omega, by simp, by simp [print_closure_trace], by simp⟩

/-- Every run in which `getregs` returns performs an initial segment of `fullRun`, at least three events long, and all twelve events when it reaches the end. -/
theorem run_shape (R : Runtime) (w : World) (regs : stg_regset_t)
    (hg : R.getregs w = some regs) :
    ∃ n v, 3 ≤ n ∧ n ≤ 12 ∧ (hk_zp R w).trace = (fullRun R regs v).take n ∧
      ((hk_zp R w).val = Except.ok () → n = 12) := by
  have hk := runs_step (printregs_trace R regs)
    (runs_step (print_closure_trace R regs.r1.a "R1" 0 regs)
    (runs_step (print_closure_trace R regs.r2.a "R2" 0 regs)
    (runs_step (print_closure_trace R regs.r3.a "R3" 0 regs)
    (runs_step (print_closure_trace R regs.r4.a "R4" 0 regs)
    (runs_step (print_closure_trace R regs.r5.a "R5" 0 regs)
    (runs_step (print_closure_trace R regs.r6.a "R6" 0 regs)
    (runs_step (print_closure_trace R regs.sp "*Sp" 0 regs)
    (runs_last R regs))))))))
  obtain ⟨n, v, h1, h2, h3, h4⟩ := hk { w with out := w.out ++ "---(+)---\n" }
  refine ⟨n + 2, v, by omega, by simp at h2; omega, ?_, ?_⟩
  · rw [hk_zp_eq]
    simp only [andThen, getregs, hg, printf]
    simp only [andThen] at h3
    rw [h3]
    simp [fullRun]
  · intro h
    rw [hk_zp_eq] at h
    simp only [andThen, getregs, hg, printf] at h
    simp only [andThen] at h4
    have := h4 h
    simp at this
    omega


/-- When the printers return, a run gets as far as the read of `regs.sp[5]`, done in some world `w8`: it stops there when the slot is unreadable and reaches the end otherwise; with append-only printers `w8` has the memory of the start. -/
theorem run_of_returns (R : Runtime) (w : World) (regs : stg_regset_t)
    (hg : R.getregs w = some regs) (hR : R.Returns) :
    ∃ w8 : World, (R.AppendOnly → w8.mem = w.mem) ∧
      ((w8.mem (regs.sp + 5 * R.sizeof_StgWord) = none ∧
          (hk_zp R w).trace = (fullRun R regs 0).take 11 ∧
          (hk_zp R w).val = Except.error (Fault.segv (regs.sp + 5 * R.sizeof_StgWord))) ∨
       (∃ v, w8.mem (regs.sp + 5 * R.sizeof_StgWord) = some v ∧
          (hk_zp R w).trace = fullRun R regs v ∧ (hk_zp R w).val = Except.ok ())) := by
  obtain ⟨w1, h1⟩ := hR.1 regs { w with out := w.out ++ "---(+)---\n" }
  obtain ⟨w2, h2⟩ := hR.2 regs.r1.a "R1" 0 regs w1
  obtain ⟨w3, h3⟩ := hR.2 regs.r2.a "R2" 0 regs w2
  obtain ⟨w4, h4⟩ := hR.2 regs.r3.a "R3" 0 regs w3
  obtain ⟨w5, h5⟩ := hR.2 regs.r4.a "R4" 0 regs w4
  obtain ⟨w6, h6⟩ := hR.2 regs.r5.a "R5" 0 regs w5
  obtain ⟨w7, h7⟩ := hR.2 regs.r6.a "R6" 0 regs w6
  obtain ⟨w8, h8⟩ := hR.2 regs.sp "*Sp" 0 regs w7
  refine ⟨w8, ?_, ?_⟩
  · intro hA
    rw [(hA.2 _ _ _ _ _ _ h8).1, (hA.2 _ _ _ _ _ _ h7).1, (hA.2 _ _ _ _ _ _ h6).1,
      (hA.2 _ _ _ _ _ _ h5).1, (hA.2 _ _ _ _ _ _ h4).1, (hA.2 _ _ _ _ _ _ h3).1,
      (hA.2 _ _ _ _ _ _ h2).1, (hA.1 _ _ _ h1).1]
  · rcases hm : w8.mem (regs.sp + 5 * R.sizeof_StgWord) with _ | v
    · left
      simp only [hk_zp_eq, andThen, getregs, hg, printf, printregs, print_closure, index,
        h1, h2, h3, h4, h5, h6, h7, h8, hm, fullRun]
      simp
    · right
      obtain ⟨w9, h9⟩ := hR.2 v "*Sp+0x20" 0 regs w8
      refine ⟨v, rfl, ?_⟩
      simp only [hk_zp_eq, andThen, getregs, hg, printf, printregs, print_closure, index,
        h1, h2, h3, h4, h5, h6, h7, h8, hm, h9, fullRun]
      simp

/-- Sequencing keeps the frame condition. -/
theorem frames_andThen {α β : Type} {x : Hook α} {f : α → Hook β}
    (hx : Frames x) (hf : ∀ a, Frames (f a)) : Frames (Hook.andThen x f) := by
  intro w
  have hxw := hx w
  unfold Hook.andThen
  rcases hxv : x w with ⟨t, w1, err | a⟩
  · rw [hxv] at hxw
    exact hxw
  · rw [hxv] at hxw
    simp only at hxw
    obtain ⟨hm, t1, ho⟩ := hxw
    obtain ⟨hm2, t2, ho2⟩ := hf a w1
    refine ⟨by simp only [hm2, hm], t1 ++ t2, ?_⟩
    simp only [ho2, ho, String.append_assoc]

/-- `getregs` leaves the world alone. -/
theorem frames_getregs (R : Runtime) : Frames (getregs R) := by
  intro w
  unfold Hook.getregs
  split <;> exact ⟨rfl, "", by simp⟩

/-- `printf` only appends to the output. -/
theorem frames_printf (s : String) : Frames (printf s) := by
  intro w
  exact ⟨rfl, s, rfl⟩

/-- A read leaves the world alone. -/
theorem frames_index (R : Runtime) (p : StgPtr) (i : Nat) : Frames (index R p i) := by
  intro w
  unfold Hook.index
  split <;> exact ⟨rfl, "", by simp⟩

/-- An append-only `printregs` keeps the frame condition. -/
theorem frames_printregs {R : Runtime} (hA : R.AppendOnly) (regs : stg_regset_t) :
    Frames (printregs R regs) := by
  intro w
  unfold Hook.printregs
  split
  · next w1 h => exact hA.1 regs w w1 h
  · exact ⟨rfl, "", by simp⟩

/-- An append-only `print_closure` keeps the frame condition. -/
theorem frames_print_closure {R : Runtime} (hA : R.AppendOnly) (ref : StgWord) (l : String)
    (d : Int) (regs : stg_regset_t) : Frames (print_closure R ref l d regs) := by
  intro w
  unfold Hook.print_closure
  split
  · next w1 h => exact hA.2 ref l d regs w w1 h
  · exact ⟨rfl, "", by simp⟩

/-- The steps after the delimiter keep the frame condition. -/
theorem frames_dumps {R : Runtime} (hA : R.AppendOnly) (regs : stg_regset_t) :
    Frames
      (andThen (printregs R regs) (fun _ =>
      andThen (print_closure R regs.r1.a "R1" 0 regs) (fun _ =>
      andThen (print_closure R regs.r2.a "R2" 0 regs) (fun _ =>
      andThen (print_closure R regs.r3.a "R3" 0 regs) (fun _ =>
      andThen (print_closure R regs.r4.a "R4" 0 regs) (fun _ =>
      andThen (print_closure R regs.r5.a "R5" 0 regs) (fun _ =>
      andThen (print_closure R regs.r6.a "R6" 0 regs) (fun _ =>
      andThen (print_closure R regs.sp "*Sp" 0 regs) (fun _ =>
      andThen (index R regs.sp 5) (fun slot =>
      print_closure R slot "*Sp+0x20" 0 regs)))))))))) := by
  refine frames_andThen (frames_printregs hA regs) (fun _ => ?_)
  refine frames_andThen (frames_print_closure hA _ _ _ regs) (fun _ => ?_)
  refine frames_andThen (frames_print_closure hA _ _ _ regs) (fun _ => ?_)
  refine frames_andThen (frames_print_closure hA _ _ _ regs) (fun _ => ?_)
  refine frames_andThen (frames_print_closure hA _ _ _ regs) (fun _ => ?_)
  refine frames_andThen (frames_print_closure hA _ _ _ regs) (fun _ => ?_)
  refine frames_andThen (frames_print_closure hA _ _ _ regs) (fun _ => ?_)
  refine frames_andThen (frames_print_closure hA _ _ _ regs) (fun _ => ?_)
  refine frames_andThen (frames_index R _ _) (fun slot => ?_)
  exact frames_print_closure hA _ _ _ regs

/-- The hook keeps the frame condition. -/
theorem frames_hk_zp {R : Runtime} (hA : R.AppendOnly) : Frames (hk_zp R) := by
  rw [hk_zp_eq]
  refine frames_andThen (frames_getregs R) (fun regs => ?_)
  exact frames_andThen (frames_printf _) (fun _ => frames_dumps hA regs)

/-- With append-only printers the output after a run is the old output, the delimiter, and more text. -/
theorem out_after_delimiter {R : Runtime} (hA : R.AppendOnly) (w : World)
    (regs : stg_regset_t) (hg : R.getregs w = some regs) :
    ∃ t, (hk_zp R w).world.out = w.out ++ "---(+)---\n" ++ t := by
  obtain ⟨_, t, ht⟩ := frames_dumps hA regs { w with out := w.out ++ "---(+)---\n" }
  refine ⟨t, ?_⟩
  rw [← ht, hk_zp_eq]
  simp only [Hook.andThen, Hook.getregs, hg, Hook.printf]

/-! ## Determinism of a run -/

/-- Sequencing keeps determinism. -/
theorem fixed_andThen {α β : Type} {x : Hook α} {f : α → Hook β}
    (hx : Fixed x) (hf : ∀ a, Fixed (f a)) : Fixed (Hook.andThen x f) := by
  intro m
  obtain ⟨tr1, t1, v1, h1⟩ := hx m
  rcases v1 with e | a
  · refine ⟨tr1, t1, Except.error e, fun w hw => ?_⟩
    unfold Hook.andThen
    rw [h1 w hw]
  · obtain ⟨tr2, t2, v2, h2⟩ := hf a m
    refine ⟨tr1 ++ tr2, t1 ++ t2, v2, fun w hw => ?_⟩
    unfold Hook.andThen
    rw [h1 w hw]
    simp only
    rw [h2 ⟨m, w.out ++ t1⟩ rfl]
    simp only [String.append_assoc]

/-- `printf` is determined by its argument. -/
theorem fixed_printf (s : String) : Fixed (printf s) := by
  intro m
  refine ⟨[Event.printf s], s, Except.ok (), fun w hw => ?_⟩
  subst hw
  rfl

/-- A read is determined by the memory. -/
theorem fixed_index (R : Runtime) (p : StgPtr) (i : Nat) : Fixed (index R p i) := by
  intro m
  rcases hm : m (p + i * R.sizeof_StgWord) with _ | v
  · refine ⟨[Event.load (p + i * R.sizeof_StgWord)], "",
      Except.error (Fault.segv (p + i * R.sizeof_StgWord)), fun w hw => ?_⟩
    subst hw
    simp [Hook.index, hm]
  · refine ⟨[Event.load (p + i * R.sizeof_StgWord)], "", Except.ok v, fun w hw => ?_⟩
    subst hw
    simp [Hook.index, hm]

/-- A deterministic `printregs` is determined by the memory. -/
theorem fixed_printregs {R : Runtime} (hD : R.Deterministic) (regs : stg_regset_t) :
    Fixed (printregs R regs) := by
  obtain ⟨f, hf⟩ := hD.1
  intro m
  rcases hm : f regs m with _ | t
  · refine ⟨[Event.printregs regs], "", Except.error (Fault.aborted "printregs"),
      fun w hw => ?_⟩
    subst hw
    simp [Hook.printregs, hf, hm]
  · refine ⟨[Event.printregs regs], t, Except.ok (), fun w hw => ?_⟩
    subst hw
    simp [Hook.printregs, hf, hm]

/-- A deterministic `print_closure` is determined by the memory. -/
theorem fixed_print_closure {R : Runtime} (hD : R.Deterministic) (ref : StgWord)
    (l : String) (d : Int) (regs : stg_regset_t) : Fixed (print_closure R ref l d regs) := by
  obtain ⟨g, hg⟩ := hD.2
  intro m
  rcases hm : g ref l d regs m with _ | t
  · refine ⟨[Event.print_closure ref l d regs], "",
      Except.error (Fault.aborted "print_closure"), fun w hw => ?_⟩
    subst hw
    simp [Hook.print_closure, hg, hm]
  · refine ⟨[Event.print_closure ref l d regs], t, Except.ok (), fun w hw => ?_⟩
    subst hw
    simp [Hook.print_closure, hg, hm]

/-- The steps after `getregs` are determined by the snapshot and the memory. -/
theorem fixed_after_getregs {R : Runtime} (hD : R.Deterministic) (regs : stg_regset_t) :
    Fixed
      (andThen (printf "---(+)---\n") (fun _ =>
      andThen (printregs R regs) (fun _ =>
      andThen (print_closure R regs.r1.a "R1" 0 regs) (fun _ =>
      andThen (print_closure R regs.r2.a "R2" 0 regs) (fun _ =>
      andThen (print_closure R regs.r3.a "R3" 0 regs) (fun _ =>
      andThen (print_closure R regs.r4.a "R4" 0 regs) (fun _ =>
      andThen (print_closure R regs.r5.a "R5" 0 regs) (fun _ =>
      andThen (print_closure R regs.r6.a "R6" 0 regs) (fun _ =>
      andThen (print_closure R regs.sp "*Sp" 0 regs) (fun _ =>
      andThen (index R regs.sp 5) (fun slot =>
      print_closure R slot "*Sp+0x20" 0 regs))))))))))) := by
  refine fixed_andThen (fixed_printf _) (fun _ => ?_)
  refine fixed_andThen (fixed_printregs hD regs) (fun _ => ?_)
  refine fixed_andThen (fixed_print_closure hD _ _ _ regs) (fun _ => ?_)
  refine fixed_andThen (fixed_print_closure hD _ _ _ regs) (fun _ => ?_)
  refine fixed_andThen (fixed_print_closure hD _ _ _ regs) (fun _ => ?_)
  refine fixed_andThen (fixed_print_closure hD _ _ _ regs) (fun _ => ?_)
  refine fixed_andThen (fixed_print_closure hD _ _ _ regs) (fun _ => ?_)
  refine fixed_andThen (fixed_print_closure hD _ _ _ regs) (fun _ => ?_)
  refine fixed_andThen (fixed_print_closure hD _ _ _ regs) (fun _ => ?_)
  refine fixed_andThen (fixed_index R _ _) (fun slot => ?_)
  exact fixed_print_closure hD _ _ _ regs

/-- A run is determined by the snapshot `getregs` yields and the memory. -/
theorem run_fixed {R : Runtime} (hD : R.Deterministic) (regs : stg_regset_t)
    (m : StgPtr → Option StgWord) :
    ∃ tr t v, ∀ w : World, R.getregs w = some regs → w.mem = m →
      hk_zp R w = ⟨tr, ⟨m, w.out ++ t⟩, v⟩ := by
  obtain ⟨tr, t, v, h⟩ := fixed_after_getregs hD regs m
  refine ⟨Event.getregs :: tr, t, v, fun w hg hw => ?_⟩
  rw [hk_zp_eq]
  have := h w hw
  simp only [Hook.andThen, Hook.getregs, hg] at this ⊢
  rw [this]
  simp

/-! ## Facts about the concrete runtime -/

/-- The printers of `demoRuntime` return on every input. -/
theorem demoRuntime_returns : demoRuntime.Returns :=
  ⟨fun _ _ => ⟨_, rfl⟩, fun _ _ _ _ _ => ⟨_, rfl⟩⟩

/-- The printers of `demoRuntime` only append to the output. -/
theorem demoRuntime_appendOnly : demoRuntime.AppendOnly := by
  refine ⟨fun regs w w1 h => ?_, fun ref label depth regs w w1 h => ?_⟩
  · simp only [demoRuntime, Option.some.injEq] at h
    subst h
    exact ⟨rfl, _, rfl⟩
  · simp only [demoRuntime, Option.some.injEq] at h
    subst h
    exact ⟨rfl, _, rfl⟩

/-- The printers of `demoRuntime` are deterministic. -/
theorem demoRuntime_deterministic : demoRuntime.Deterministic :=
  ⟨⟨fun regs _ => some (toString regs.sp ++ "\n"), fun _ _ => rfl⟩,
   ⟨fun ref label _ _ _ => some (label ++ "=" ++ toString ref ++ "\n"),
    fun _ _ _ _ _ => rfl⟩⟩

/-! ## The claims -/

/-- C1: once `getregs` has captured the snapshot, the first thing the hook
writes is the delimiter line: the trace starts with the `getregs` call followed
by `printf` of the delimiter, so the write precedes every `printregs` and
`print_closure` call; the delimiter is written exactly once and the hook makes
no other write of its own; when the printers only append, the output after the
run is the old output, the delimiter, and then whatever the printers wrote. -/
theorem hk_zp_delimiter_first (R : Runtime) (w : World) (regs : stg_regset_t)
    (hg : R.getregs w = some regs) :
    (hk_zp R w).trace.take 2 = [Event.getregs, Event.printf "---(+)---\n"] ∧
    (hk_zp R w).trace.count (Event.printf "---(+)---\n") = 1 ∧
    (∀ s, Event.printf s ∈ (hk_zp R w).trace → s = "---(+)---\n") ∧
    (R.AppendOnly → ∃ t, (hk_zp R w).world.out = w.out ++ "---(+)---\n" ++ t) := by
  obtain ⟨n, v, h3, h12, ht, -⟩ := run_shape R w regs hg
  refine ⟨?_, ?_, ?_, fun hA => out_after_delimiter hA w regs hg⟩
  · rw [ht]
    interval_cases n <;> simp [fullRun]
  · rw [ht]
    interval_cases n <;> simp [fullRun, List.count_cons]
  · intro s hs
    rw [ht] at hs
    have hmem := List.mem_of_mem_take hs
    simp [fullRun] at hmem
    exact hmem

/-- Witness of C1 on the concrete runtime. -/
theorem hk_zp_delimiter_first_witness :
    demoRuntime.getregs demoWorld = some demoRegs ∧
    (hk_zp demoRuntime demoWorld).trace.take 2
      = [Event.getregs, Event.printf "---(+)---\n"] ∧
    (hk_zp demoRuntime demoWorld).trace.count (Event.printf "---(+)---\n") = 1 :=
  ⟨rfl, (hk_zp_delimiter_first demoRuntime demoWorld demoRegs rfl).1,
    (hk_zp_delimiter_first demoRuntime demoWorld demoRegs rfl).2.1⟩

/-- C2: when `getregs` captured `regs`, the `print_closure` calls of the hook
start with the dumps labelled "R1", "R2", "R3", "R4", "R5", "R6", in this order,
the i-th with reference argument `regs.r_i.a`: in every run the first calls
made (up to six) are an initial segment of that list, so no register is
skipped, repeated or given the label of another; and when the printers return,
all six are made. -/
theorem hk_zp_register_dumps (R : Runtime) (w : World) (regs : stg_regset_t)
    (hg : R.getregs w = some regs) :
    ((hk_zp R w).trace.filter Event.isDump).take 6 =
      [Event.print_closure regs.r1.a "R1" 0 regs,
       Event.print_closure regs.r2.a "R2" 0 regs,
       Event.print_closure regs.r3.a "R3" 0 regs,
       Event.print_closure regs.r4.a "R4" 0 regs,
       Event.print_closure regs.r5.a "R5" 0 regs,
       Event.print_closure regs.r6.a "R6" 0 regs].take
        ((hk_zp R w).trace.filter Event.isDump).length ∧
    (R.Returns →
      ((hk_zp R w).trace.filter Event.isDump).take 6 =
        [Event.print_closure regs.r1.a "R1" 0 regs,
         Event.print_closure regs.r2.a "R2" 0 regs,
         Event.print_closure regs.r3.a "R3" 0 regs,
         Event.print_closure regs.r4.a "R4" 0 regs,
         Event.print_closure regs.r5.a "R5" 0 regs,
         Event.print_closure regs.r6.a "R6" 0 regs]) := by
  refine ⟨?_, fun hR => ?_⟩
  · obtain ⟨n, v, h3, h12, ht, -⟩ := run_shape R w regs hg
    rw [ht]
    interval_cases n <;> simp [fullRun, Event.isDump]
  · obtain ⟨w8, -, ⟨-, ht, -⟩ | ⟨v, -, ht, -⟩⟩ := run_of_returns R w regs hg hR
    · rw [ht]
      simp [fullRun, Event.isDump]
    · rw [ht]
      simp [fullRun, Event.isDump]

/-- Witness of C2 on the concrete runtime: the six references are the six
distinct register values 101..106. -/
theorem hk_zp_register_dumps_witness :
    demoRuntime.getregs demoWorld = some demoRegs ∧
    ((hk_zp demoRuntime demoWorld).trace.filter Event.isDump).take 6 =
      [Event.print_closure 101 "R1" 0 demoRegs,
       Event.print_closure 102 "R2" 0 demoRegs,
       Event.print_closure 103 "R3" 0 demoRegs,
       Event.print_closure 104 "R4" 0 demoRegs,
       Event.print_closure 105 "R5" 0 demoRegs,
       Event.print_closure 106 "R6" 0 demoRegs] :=
  ⟨rfl, (hk_zp_register_dumps demoRuntime demoWorld demoRegs rfl).2 demoRuntime_returns⟩

/-- C8: when `getregs` captured `regs`, every `print_closure` call the hook
makes passes depth 0 and, as context, that same snapshot `regs`; there are at
most eight such calls, and exactly eight in a run that reaches the end. -/
theorem hk_zp_depth_and_context (R : Runtime) (w : World) (regs : stg_regset_t)
    (hg : R.getregs w = some regs) :
    (∀ ref label depth ctx, Event.print_closure ref label depth ctx ∈ (hk_zp R w).trace →
      depth = 0 ∧ ctx = regs) ∧
    ((hk_zp R w).trace.filter Event.isDump).length ≤ 8 ∧
    ((hk_zp R w).val = Except.ok () →
      ((hk_zp R w).trace.filter Event.isDump).length = 8) := by
  obtain ⟨n, v, h3, h12, ht, hok⟩ := run_shape R w regs hg
  refine ⟨?_, ?_, ?_⟩
  · intro ref label depth ctx hmem
    rw [ht] at hmem
    have hfull := List.mem_of_mem_take hmem
    simp only [fullRun, List.mem_cons, Event.print_closure.injEq, List.mem_singleton,
      reduceCtorEq, false_or, List.not_mem_nil, or_false] at hfull
    rcases hfull with h | h | h | h | h | h | h | h <;> exact ⟨h.2.2.1, h.2.2.2⟩
  · rw [ht]
    interval_cases n <;> simp [fullRun, Event.isDump]
  · intro h
    rw [ht, hok h]
    simp [fullRun, Event.isDump]

/-- Witness of C8 on the concrete runtime: the run reaches the end and makes
eight calls. -/
theorem hk_zp_depth_and_context_witness :
    demoRuntime.getregs demoWorld = some demoRegs ∧
    ((hk_zp demoRuntime demoWorld).trace.filter Event.isDump).length = 8 :=
  ⟨rfl, (hk_zp_depth_and_context demoRuntime demoWorld demoRegs rfl).2.2 rfl⟩

/-- C9: when `getregs` captured `regs`, the trace starts with the single
`getregs` call, the delimiter write and the `printregs` call on that same
snapshot; `getregs` is called exactly once and `printregs` exactly once, on no
other snapshot; no `print_closure` call precedes them, whatever follows the
register dump is the "R1" dump, and it does follow when the printers return. -/
theorem hk_zp_snapshot_once (R : Runtime) (w : World) (regs : stg_regset_t)
    (hg : R.getregs w = some regs) :
    (hk_zp R w).trace.take 3 =
      [Event.getregs, Event.printf "---(+)---\n", Event.printregs regs] ∧
    (hk_zp R w).trace.count Event.getregs = 1 ∧
    (hk_zp R w).trace.count (Event.printregs regs) = 1 ∧
    (∀ s, Event.printregs s ∈ (hk_zp R w).trace → s = regs) ∧
    (∀ e, (hk_zp R w).trace[3]? = some e → e = Event.print_closure regs.r1.a "R1" 0 regs) ∧
    (R.Returns →
      (hk_zp R w).trace[3]? = some (Event.print_closure regs.r1.a "R1" 0 regs)) := by
  obtain ⟨n, v, h3, h12, ht, -⟩ := run_shape R w regs hg
  refine ⟨?_, ?_, ?_, ?_, ?_, ?_⟩
  · rw [ht]
    interval_cases n <;> simp [fullRun]
  · rw [ht]
    interval_cases n <;> simp [fullRun, List.count_cons]
  · rw [ht]
    interval_cases n <;> simp [fullRun, List.count_cons]
  · intro s hs
    rw [ht] at hs
    have hmem := List.mem_of_mem_take hs
    simp [fullRun] at hmem
    exact hmem
  · intro e he
    rw [ht] at he
    interval_cases n <;> simp [fullRun] at he <;> exact he.symm
  · intro hR
    obtain ⟨w8, -, ⟨-, ht2, -⟩ | ⟨v2, -, ht2, -⟩⟩ := run_of_returns R w regs hg hR
    · rw [ht2]
      simp [fullRun]
    · rw [ht2]
      simp [fullRun]

/-- Witness of C9 on the concrete runtime. -/
theorem hk_zp_snapshot_once_witness :
    demoRuntime.getregs demoWorld = some demoRegs ∧
    (hk_zp demoRuntime demoWorld).trace.take 3 =
      [Event.getregs, Event.printf "---(+)---\n", Event.printregs demoRegs] ∧
    (hk_zp demoRuntime demoWorld).trace[3]? = some (Event.print_closure 101 "R1" 0 demoRegs) :=
  ⟨rfl, (hk_zp_snapshot_once demoRuntime demoWorld demoRegs rfl).1,
    (hk_zp_snapshot_once demoRuntime demoWorld demoRegs rfl).2.2.2.2.2 demoRuntime_returns⟩

/-- C3, as stated, fails on a short stack: on `shortStackWorld` the external
routines all return, yet the hook makes seven `print_closure` calls, not eight;
its last effect is its own read of the unreadable slot at address 4136, and no
call labelled "*Sp+0x20" is made. -/
theorem hk_zp_last_dump_short_stack :
    demoRuntime.getregs shortStackWorld = some demoRegs ∧ demoRuntime.Returns ∧
    ((hk_zp demoRuntime shortStackWorld).trace.filter Event.isDump).length = 7 ∧
    (hk_zp demoRuntime shortStackWorld).trace.getLast? = some (Event.load 4136) ∧
    (∀ e ∈ (hk_zp demoRuntime shortStackWorld).trace, e.label ≠ some "*Sp+0x20") :=
  ⟨rfl, demoRuntime_returns, by decide, by decide, by decide⟩

/-- C3, amended: when `getregs` captured `regs`, the printers return and only
append to the output, and the stack slot five words above `regs.sp` is readable
and holds `v`, the run reaches the end; its last effect is the `print_closure`
call labelled "*Sp+0x20" whose reference argument is `v`, the contents of the
slot (not its address); that call is the eighth of exactly eight. -/
theorem hk_zp_last_dump (R : Runtime) (w : World) (regs : stg_regset_t) (v : StgWord)
    (hg : R.getregs w = some regs) (hR : R.Returns) (hA : R.AppendOnly)
    (hv : w.mem (regs.sp + 5 * R.sizeof_StgWord) = some v) :
    (hk_zp R w).val = Except.ok () ∧
    (hk_zp R w).trace.getLast? = some (Event.print_closure v "*Sp+0x20" 0 regs) ∧
    ((hk_zp R w).trace.filter Event.isDump).length = 8 ∧
    ((hk_zp R w).trace.filter Event.isDump)[7]?
      = some (Event.print_closure v "*Sp+0x20" 0 regs) := by
  obtain ⟨w8, hm, ⟨hn, -, -⟩ | ⟨v2, hs, ht, hok⟩⟩ := run_of_returns R w regs hg hR
  · rw [hm hA, hv] at hn
    cases hn
  · rw [hm hA, hv] at hs
    cases hs
    refine ⟨hok, ?_, ?_, ?_⟩
    · rw [ht]
      simp [fullRun]
    · rw [ht]
      simp [fullRun, Event.isDump]
    · rw [ht]
      simp [fullRun, Event.isDump]

/-- Witness of the amended C3 on the concrete runtime: the slot 0x28 bytes above
the stack pointer holds 777, and 777 is the reference of the last dump. -/
theorem hk_zp_last_dump_witness :
    demoWorld.mem (demoRegs.sp + 5 * demoRuntime.sizeof_StgWord) = some 777 ∧
    (hk_zp demoRuntime demoWorld).trace.getLast?
      = some (Event.print_closure 777 "*Sp+0x20" 0 demoRegs) ∧
    ((hk_zp demoRuntime demoWorld).trace.filter Event.isDump).length = 8 :=
  ⟨rfl,
    (hk_zp_last_dump demoRuntime demoWorld demoRegs 777 rfl demoRuntime_returns
      demoRuntime_appendOnly rfl).2.1,
    (hk_zp_last_dump demoRuntime demoWorld demoRegs 777 rfl demoRuntime_returns
      demoRuntime_appendOnly rfl).2.2.1⟩

/-- C4, as stated, fails on a short stack: on `shortStackWorld` the external
routines all return and the hook makes its one "*Sp" dump, with reference 4096,
as the seventh call; but no call follows it and no call is labelled "*Sp+0x20",
so the "*Sp" dump is not immediately before a "*Sp+0x20" dump. -/
theorem hk_zp_sp_dump_short_stack :
    demoRuntime.getregs shortStackWorld = some demoRegs ∧ demoRuntime.Returns ∧
    ((hk_zp demoRuntime shortStackWorld).trace.filter Event.isDump).drop 6
      = [Event.print_closure 4096 "*Sp" 0 demoRegs] ∧
    ((hk_zp demoRuntime shortStackWorld).trace.filter Event.isDump).drop 7 = [] ∧
    (hk_zp demoRuntime shortStackWorld).trace.filter
      (fun e => decide (e.label = some "*Sp+0x20")) = [] :=
  ⟨rfl, demoRuntime_returns, by decide, by decide, by decide⟩

/-- C4, amended: when `getregs` captured `regs` and the printers return, the
hook makes exactly one `print_closure` call labelled "*Sp"; its reference
argument is the stack-pointer value `regs.sp` itself, and it is the seventh
call, right after the six register dumps "R1".."R6".  When moreover the printers
only append to the output and the slot five words above `regs.sp` is readable
and holds `v`, the "*Sp" dump comes immediately before the "*Sp+0x20" dump of
`v`, which is the eighth and last call; when that slot is unreadable the "*Sp"
dump is the last call and no "*Sp+0x20" dump is made. -/
theorem hk_zp_sp_dump (R : Runtime) (w : World) (regs : stg_regset_t)
    (hg : R.getregs w = some regs) (hR : R.Returns) :
    (hk_zp R w).trace.filter (fun e => decide (e.label = some "*Sp"))
      = [Event.print_closure regs.sp "*Sp" 0 regs] ∧
    ((hk_zp R w).trace.filter Event.isDump).take 7 =
      [Event.print_closure regs.r1.a "R1" 0 regs,
       Event.print_closure regs.r2.a "R2" 0 regs,
       Event.print_closure regs.r3.a "R3" 0 regs,
       Event.print_closure regs.r4.a "R4" 0 regs,
       Event.print_closure regs.r5.a "R5" 0 regs,
       Event.print_closure regs.r6.a "R6" 0 regs,
       Event.print_closure regs.sp "*Sp" 0 regs] ∧
    (∀ v, R.AppendOnly → w.mem (regs.sp + 5 * R.sizeof_StgWord) = some v →
      (hk_zp R w).trace.filter Event.isDump =
        [Event.print_closure regs.r1.a "R1" 0 regs,
         Event.print_closure regs.r2.a "R2" 0 regs,
         Event.print_closure regs.r3.a "R3" 0 regs,
         Event.print_closure regs.r4.a "R4" 0 regs,
         Event.print_closure regs.r5.a "R5" 0 regs,
         Event.print_closure regs.r6.a "R6" 0 regs,
         Event.print_closure regs.sp "*Sp" 0 regs,
         Event.print_closure v "*Sp+0x20" 0 regs]) ∧
    (R.AppendOnly → w.mem (regs.sp + 5 * R.sizeof_StgWord) = none →
      (hk_zp R w).trace.filter Event.isDump =
        [Event.print_closure regs.r1.a "R1" 0 regs,
         Event.print_closure regs.r2.a "R2" 0 regs,
         Event.print_closure regs.r3.a "R3" 0 regs,
         Event.print_closure regs.r4.a "R4" 0 regs,
         Event.print_closure regs.r5.a "R5" 0 regs,
         Event.print_closure regs.r6.a "R6" 0 regs,
         Event.print_closure regs.sp "*Sp" 0 regs]) := by
  obtain ⟨w8, hm, ⟨hn, ht, -⟩ | ⟨v2, hs, ht, -⟩⟩ := run_of_returns R w regs hg hR
  · rw [ht]
    refine ⟨?_, ?_, ?_, ?_⟩
    · simp [fullRun, Event.label, List.filter]
    · simp [fullRun, Event.isDump]
    · intro v hA hv
      rw [hm hA, hv] at hn
      cases hn
    · intro _ _
      simp [fullRun, Event.isDump]
  · rw [ht]
    refine ⟨?_, ?_, ?_, ?_⟩
    · simp [fullRun, Event.label, List.filter]
    · simp [fullRun, Event.isDump]
    · intro v hA hv
      rw [hm hA, hv] at hs
      cases hs
      simp [fullRun, Event.isDump]
    · intro hA hv
      rw [hm hA, hv] at hs
      cases hs

/-- Witness of the amended C4 on the concrete runtime: the one "*Sp" dump
carries the stack-pointer value 4096, and the slot 0x28 bytes above it holds
777, whose dump is the call right after the "*Sp" dump and the last one. -/
theorem hk_zp_sp_dump_witness :
    demoRuntime.getregs demoWorld = some demoRegs ∧
    (hk_zp demoRuntime demoWorld).trace.filter (fun e => decide (e.label = some "*Sp"))
      = [Event.print_closure 4096 "*Sp" 0 demoRegs] ∧
    ((hk_zp demoRuntime demoWorld).trace.filter Event.isDump).drop 6 =
      [Event.print_closure 4096 "*Sp" 0 demoRegs,
       Event.print_closure 777 "*Sp+0x20" 0 demoRegs] :=
  ⟨rfl, (hk_zp_sp_dump demoRuntime demoWorld demoRegs rfl demoRuntime_returns).1,
    congrArg (List.drop 6)
      ((hk_zp_sp_dump demoRuntime demoWorld demoRegs rfl demoRuntime_returns).2.2.1 777
        demoRuntime_appendOnly rfl)⟩

/-- C5: when the printers only append to the output stream, a run of the hook
leaves the memory as it was and changes the world only by extending the output;
and every external printer call of the run, up to the last, is handed the very
snapshot `getregs` produced, so the snapshot is never altered during the run. -/
theorem hk_zp_frame (R : Runtime) (w : World) (hA : R.AppendOnly) :
    (hk_zp R w).world.mem = w.mem ∧
    (∃ t, (hk_zp R w).world.out = w.out ++ t) ∧
    (∀ regs, R.getregs w = some regs →
      ∀ e ∈ (hk_zp R w).trace, ∀ s, e.snapshot = some s → s = regs) := by
  refine ⟨(frames_hk_zp hA w).1, (frames_hk_zp hA w).2, ?_⟩
  intro regs hg e he s hs
  obtain ⟨n, v, -, -, ht, -⟩ := run_shape R w regs hg
  rw [ht] at he
  have hfull := List.mem_of_mem_take he
  simp only [fullRun, List.mem_cons, List.mem_singleton, List.not_mem_nil, or_false] at hfull
  rcases hfull with h | h | h | h | h | h | h | h | h | h | h | h <;> subst h <;>
    simp [Event.snapshot] at hs <;> exact hs.symm

/-- Witness of C5 on the concrete runtime. -/
theorem hk_zp_frame_witness :
    demoRuntime.AppendOnly ∧
    (hk_zp demoRuntime demoWorld).world.mem = demoWorld.mem ∧
    (∃ t, (hk_zp demoRuntime demoWorld).world.out = demoWorld.out ++ t) :=
  ⟨demoRuntime_appendOnly, (hk_zp_frame demoRuntime demoWorld demoRuntime_appendOnly).1,
    (hk_zp_frame demoRuntime demoWorld demoRuntime_appendOnly).2.1⟩

/-- C6: when the printers are deterministic functions of their arguments and
the memory, two runs in which `getregs` yields the same snapshot and the memory
is the same perform the same effects, end the same way, and write the same
text `t` to the output stream. -/
theorem hk_zp_deterministic (R : Runtime) (w1 w2 : World) (regs : stg_regset_t)
    (hD : R.Deterministic) (hg1 : R.getregs w1 = some regs)
    (hg2 : R.getregs w2 = some regs) (hm : w1.mem = w2.mem) :
    (hk_zp R w1).trace = (hk_zp R w2).trace ∧
    (hk_zp R w1).val = (hk_zp R w2).val ∧
    ∃ t, (hk_zp R w1).world.out = w1.out ++ t ∧ (hk_zp R w2).world.out = w2.out ++ t := by
  obtain ⟨tr, t, v, h⟩ := run_fixed hD regs w1.mem
  rw [h w1 hg1 rfl, h w2 hg2 hm.symm]
  exact ⟨rfl, rfl, t, rfl, rfl⟩

/-- Witness of C6 on the concrete runtime: the hook is run twice in succession,
the second run starting in the world the first one left, and both runs write
the same text. -/
theorem hk_zp_deterministic_witness :
    ∃ t, (hk_zp demoRuntime demoWorld).world.out = demoWorld.out ++ t ∧
      (hk_zp demoRuntime (hk_zp demoRuntime demoWorld).world).world.out
        = (hk_zp demoRuntime demoWorld).world.out ++ t :=
  (hk_zp_deterministic demoRuntime demoWorld (hk_zp demoRuntime demoWorld).world demoRegs
    demoRuntime_deterministic rfl rfl rfl).2.2

/-- C7, as stated, fails on a short stack: on `shortStackWorld` `getregs`
returns, both printers return on every input and only append to the output, and
still the hook does not complete; it stops with a fault at its own read of the
unreadable word at address 4136, five 8-byte words above the stack pointer. -/
theorem hk_zp_faults_on_short_stack :
    demoRuntime.getregs shortStackWorld = some demoRegs ∧ demoRuntime.Returns ∧
    demoRuntime.AppendOnly ∧
    shortStackWorld.mem (demoRegs.sp + 5 * demoRuntime.sizeof_StgWord) = none ∧
    Event.load 4136 ∈ (hk_zp demoRuntime shortStackWorld).trace ∧
    (hk_zp demoRuntime shortStackWorld).val = Except.error (Fault.segv 4136) ∧
    (hk_zp demoRuntime shortStackWorld).val ≠ Except.ok () :=
  ⟨rfl, demoRuntime_returns, demoRuntime_appendOnly, rfl, by decide, rfl,
    fun h => by
      cases (show (Except.error (Fault.segv 4136) : Except Fault Unit) = Except.ok () from h)⟩

/-- C7, amended: when `getregs` and the printers return, the hook either
completes or stops at the one fallible operation of its own, the read of the
stack slot five words above `regs.sp`; that is the only memory read the hook
performs; and when the printers only append to the output, the hook completes
exactly when that slot is readable. -/
theorem hk_zp_fallibility (R : Runtime) (w : World) (regs : stg_regset_t)
    (hg : R.getregs w = some regs) (hR : R.Returns) :
    ((hk_zp R w).val = Except.ok () ∨
      (hk_zp R w).val = Except.error (Fault.segv (regs.sp + 5 * R.sizeof_StgWord))) ∧
    (∀ a, Event.load a ∈ (hk_zp R w).trace → a = regs.sp + 5 * R.sizeof_StgWord) ∧
    (R.AppendOnly →
      ((hk_zp R w).val = Except.ok () ↔
        ∃ v, w.mem (regs.sp + 5 * R.sizeof_StgWord) = some v)) := by
  obtain ⟨w8, hm, ⟨hn, ht, herr⟩ | ⟨v, hs, ht, hok⟩⟩ := run_of_returns R w regs hg hR
  · refine ⟨Or.inr herr, ?_, ?_⟩
    · intro a ha
      rw [ht] at ha
      simp [fullRun] at ha
      exact ha
    · intro hA
      rw [hm hA] at hn
      rw [herr, hn]
      simp
  · refine ⟨Or.inl hok, ?_, ?_⟩
    · intro a ha
      rw [ht] at ha
      simp [fullRun] at ha
      exact ha
    · intro hA
      rw [hm hA] at hs
      rw [hok, hs]
      simp

/-- Witness of the amended C7 on the concrete runtime: the slot is readable and
the hook completes. -/
theorem hk_zp_fallibility_witness :
    demoRuntime.getregs demoWorld = some demoRegs ∧
    (hk_zp demoRuntime demoWorld).val = Except.ok () :=
  ⟨rfl, ((hk_zp_fallibility demoRuntime demoWorld demoRegs rfl demoRuntime_returns).2.2
    demoRuntime_appendOnly).mpr ⟨777, rfl⟩⟩

/-- C10, evaluated: with 8-byte words the hook reads the word 0x28 bytes above
the stack pointer and dumps it under the label "*Sp+0x20"; on `demoWorld` the
dump shows 777, the word at offset 0x28, and not 444, the word at offset 0x20;
five stack words are 0x28 bytes, and for no word size are five words 0x20 bytes. -/
theorem hk_zp_probe_offset :
    (hk_zp demoRuntime demoWorld).trace.drop 10 =
      [Event.load (demoRegs.sp + 0x28), Event.print_closure 777 "*Sp+0x20" 0 demoRegs] ∧
    demoWorld.mem (demoRegs.sp + 0x20) = some 444 ∧
    demoWorld.mem (demoRegs.sp + 0x28) = some 777 ∧
    5 * demoRuntime.sizeof_StgWord = 0x28 ∧
    (∀ R : Runtime, 5 * R.sizeof_StgWord ≠ 0x20) :=
  ⟨by decide, rfl, rfl, rfl, fun R => by omega⟩

end HaskellHook
